import Mathlib

/-!
Shallow embedding of `src/yamlsplit.rs`, a YAML-document stream splitter.

Strings are modelled as `List Char` (the program decodes every line to UTF-8
text before inspecting it, so characters are the right granularity).  The
Rust standard-library functions the program calls (`str::rsplit_once`,
`Path::parent` / `file_name` / `extension`, `BufRead::lines`, decimal
formatting of an unsigned counter) are modelled by the definitions below,
each faithful to the documented behaviour of the library function on the
inputs the program can feed it.
-/

namespace yamlsplit

/-- Model of Rust `str::rsplit_once (c)`: splits at the LAST occurrence of
`c`, returning the part before and the part after it (separator dropped),
or `none` when `c` does not occur. -/
def rsplitOnce (c : Char) : List Char → Option (List Char × List Char)
  | [] => none
  | a :: rest =>
    match rsplitOnce c rest with
    | some (b, aft) => some (a :: b, aft)
    | none => if a = c then some ([], rest) else none

/-- Model of Rust `Path::file_name().unwrap().to_str().unwrap()` for Unix
paths whose final component is a normal (non-`.`/`..`, nonempty) name and
which have no trailing separator: the part after the last `/`, or the whole
path when there is no `/`. -/
def fileNameOf (p : List Char) : List Char :=
  match rsplitOnce '/' p with
  | some (_, f) => f
  | none => p

/-- Model of Rust `Path::parent().unwrap().to_str().unwrap()` for the same
class of paths: the part before the last `/` (the raw prefix of the path
string), or the empty string when there is no `/`. -/
def parentOf (p : List Char) : List Char :=
  match rsplitOnce '/' p with
  | some (d, _) => d
  | none => []

/-- Model of Rust `Path::extension()`: split the file-name component at its
last `.`; the extension is the part after it, except that it is `none` when
there is no `.` or when the only `.` is the leading character (a dotfile
such as `.bashrc` has no extension in Rust's semantics). -/
def extensionOf (p : List Char) : Option (List Char) :=
  match rsplitOnce '.' (fileNameOf p) with
  | none => none
  | some (b, a) => if b = [] then none else some a

/-- Embedding of `fn basename(filename: PathBuf) -> (String, String)`
(src/yamlsplit.rs lines 57-74): returns the base name (directory prefix,
when any, reattached with a `/`, then everything before the last `.` of the
file-name component) together with the extension (`Path::extension()`, or
`""` when it is `None`). -/
def basename (filename : List Char) : List Char × List Char :=
  let dirname := parentOf filename
  let extension := (extensionOf filename).getD []
  let dirname := if dirname = [] then [] else dirname ++ ['/']
  let fname := fileNameOf filename
  match rsplitOnce '.' fname with
  | some (b, _) => (dirname ++ b, extension)
  | none => (dirname ++ fname, extension)

/-- `if d = [] then f else d ++ "/" ++ f`: a path made of an optional
directory prefix `d` and a file-name component `f`. -/
def mkPath (d f : List Char) : List Char :=
  if d = [] then f else d ++ '/' :: f

/-- The directory prefix as `basename` reattaches it: `""` stays empty,
anything else gets a trailing `/`. -/
def dirPre (d : List Char) : List Char :=
  if d = [] then [] else d ++ ['/']

/-- Embedding of `regex_doc_start` (pattern `^--- *$`): the line is exactly
three dashes followed by zero or more spaces. -/
def isDocStart (l : List Char) : Bool :=
  match l with
  | a :: b :: c :: rest => a = '-' && b = '-' && c = '-' && rest.all (fun x => x = ' ')
  | _ => false

/-- Embedding of `regex_doc_end` (pattern `^\.\.\. *$`): the line is exactly
three dots followed by zero or more spaces. -/
def isDocEnd (l : List Char) : Bool :=
  match l with
  | a :: b :: c :: rest => a = '.' && b = '.' && c = '.' && rest.all (fun x => x = ' ')
  | _ => false

/-- Drops a leading `'\r'`.  Applied to the REVERSED accumulator of a line
when a `'\n'` is reached, this strips the carriage return standing
immediately before the `'\n'`, exactly the chomping `BufRead::lines`
performs on a CRLF ending. -/
def chompCR (l : List Char) : List Char :=
  match l with
  | '\r' :: l2 => l2
  | _ => l

/-- Worker for `rustLines`: scans forward with the current line accumulated
in reverse in `acc`.  On a `'\n'` the accumulated line is emitted with one
`'\r'` immediately before the `'\n'` stripped; a final line with no
terminating `'\n'` is emitted verbatim, and nothing is emitted after a
`'\n'` that ends the input. -/
def linesGo (acc : List Char) : List Char → List (List Char)
  | [] => [acc.reverse]
  | c :: rest =>
    if c = '\n' then
      if rest = [] then [(chompCR acc).reverse]
      else (chompCR acc).reverse :: linesGo [] rest
    else
      linesGo (c :: acc) rest

/-- Model of Rust `BufRead::lines()` over a fully available input: splits at
each `'\n'`, strips the `'\n'` and a `'\r'` directly before it, yields a
final unterminated line verbatim, and yields nothing after a terminating
`'\n'` at end of input. -/
def rustLines (s : List Char) : List (List Char) :=
  match s with
  | [] => []
  | c :: rest => linesGo [] (c :: rest)

/-- The input stream with every line terminated by CRLF (`"\r\n"`). -/
def joinCRLF (ls : List (List Char)) : List Char :=
  (ls.map (fun l => l ++ ['\r', '\n'])).flatten

/-- The state of the splitting loop in `main` (src/yamlsplit.rs lines
143-170): the contents of the output files already closed, in creation
order; the accumulated content of the currently open output file, when one
is open (`output_file`); and the value of `output_file_count`. -/
structure SplitState where
  closed : List (List Char)
  current : Option (List Char)
  count : Nat
  deriving DecidableEq, Repr

/-- Embedding of `fn output_line_to_file` (lines 100-109): when a file is
open, append the line's bytes followed by the single byte `'\n'`; when no
file is open, do nothing. -/
def output_line_to_file (line : List Char) (cur : Option (List Char)) :
    Option (List Char) :=
  match cur with
  | some content => some (content ++ line ++ ['\n'])
  | none => none

/-- One iteration of the `for line in input.lines()` loop in `main` (lines
147-170).  A start-marker line unconditionally opens a fresh output file
(the previous one, if open, is finalized by being replaced); an end-marker
line closes the open file, if any; any other line first opens a file when
none is open and then writes the line through `output_line_to_file`.
Opening a file increments `output_file_count` by one
(`open_new_file_for_output`, lines 111-120). -/
def step (st : SplitState) (line : List Char) : SplitState :=
  if isDocStart line then
    { closed := st.closed ++ st.current.toList, current := some [], count := st.count + 1 }
  else if isDocEnd line then
    { closed := st.closed ++ st.current.toList, current := none, count := st.count }
  else
    let st2 := if st.current.isNone then
        { closed := st.closed, current := some ([] : List Char), count := st.count + 1 }
      else st
    { st2 with current := output_line_to_file line st2.current }

/-- The whole scan loop of `main`: fold `step` over the input lines starting
from `output_file_count = 0` and no open output file. -/
def runSplit (lines : List (List Char)) : SplitState :=
  lines.foldl step { closed := [], current := none, count := 0 }

/-- The contents of all output files on disk after the loop ends: the closed
files followed by the still-open one, which is flushed and closed when its
handle is dropped at the end of `main`. -/
def finalFiles (st : SplitState) : List (List Char) :=
  st.closed ++ st.current.toList

/-- The number of output files created so far. -/
def numFiles (st : SplitState) : Nat :=
  st.closed.length + st.current.toList.length

/-- Little-endian decimal digits of `n` as characters, with explicit fuel
(any fuel at least `n` is enough, since a number has no more decimal digits
than its value). -/
def decimalAux : Nat → Nat → List Char
  | 0, _ => []
  | fuel + 1, n =>
    if n = 0 then [] else Nat.digitChar (n % 10) :: decimalAux fuel (n / 10)

/-- Model of the decimal rendering `format!` applies to the `u32` counter. -/
def decimalRepr (n : Nat) : List Char :=
  if n = 0 then ['0'] else (decimalAux n n).reverse

/-- The output filename `format!("{}-{}.{}", basename, count, extension)`
built in `open_new_file_for_output` (line 116). -/
def mkOutputFilename (b e : List Char) (n : Nat) : List Char :=
  b ++ '-' :: (decimalRepr n ++ '.' :: e)

/-- Embedding of `fn open_new_file_for_output` (lines 111-120): returns the
name of the file created (from the counter value BEFORE the increment)
together with the incremented counter. -/
def open_new_file_for_output (b e : List Char) (count : Nat) :
    List Char × Nat :=
  (mkOutputFilename b e count, count + 1)

/-- `k` successive calls of the output-file factory threading the counter:
the list of filenames produced, in call order, and the final counter. -/
def runFactory (b e : List Char) : Nat → Nat → List (List Char) × Nat
  | c, 0 => ([], c)
  | c, k + 1 =>
    let (name, c2) := open_new_file_for_output b e c
    let (names, cf) := runFactory b e c2 k
    (name :: names, cf)

/-- The input source resolved by `stdin_or_input_file`. -/
inductive InputSource where
  | stdin : InputSource
  | file : List Char → InputSource
  deriving DecidableEq, Repr

/-- Embedding of `fn stdin_or_input_file` (lines 38-52) over the argument
vector (`argv.get? 1` is `args.nth(1)`): `-` or a missing argument selects
standard input and the virtual filename `stdin.yaml`; anything else opens
the named file and uses its path for naming.  Returns the source and the
`(basename, extension)` pair. -/
def stdin_or_input_file (argv : List (List Char)) :
    InputSource × (List Char × List Char) :=
  let input_filename := (argv.get? 1).getD ['-']
  let src := if input_filename = ['-'] then InputSource.stdin
    else InputSource.file input_filename
  let input_filename := if input_filename = ['-'] then "stdin.yaml".data
    else input_filename
  (src, basename input_filename)

/-- The scan loop of `main` in the presence of line-decode results: each
element is `some line` for a line that decoded, `none` for a line whose
decoding failed.  `line.unwrap()` (line 148) aborts the process on the
first failure, so the fold stops there, returning the state reached and
`false` (a non-zero process exit); reading the whole input returns the
final state and `true` (exit zero). -/
def runScan (st : SplitState) : List (Option (List Char)) → SplitState × Bool
  | [] => (st, true)
  | none :: _ => (st, false)
  | some l :: rest => runScan (step st l) rest

end yamlsplit

-- sanity checks on the basename embedding (mirroring the #[test] in the source)
example : yamlsplit.basename "foo".data = ("foo".data, "".data) := by decide
example : yamlsplit.basename "foo.yaml".data = ("foo".data, "yaml".data) := by decide
example : yamlsplit.basename "foo.bar.yaml".data = ("foo.bar".data, "yaml".data) := by decide
example : yamlsplit.basename "dir/foo.bar.baz.yaml".data = ("dir/foo.bar.baz".data, "yaml".data) := by decide
example : yamlsplit.basename ".bashrc".data = ("".data, "".data) := by decide
example : yamlsplit.isDocStart "---".data = true := by decide
example : yamlsplit.isDocStart "---  ".data = true := by decide
example : yamlsplit.isDocStart "--- x".data = false := by decide
example : yamlsplit.isDocStart "---\r".data = false := by decide
example : yamlsplit.isDocEnd "...".data = true := by decide
example : yamlsplit.isDocEnd "....".data = false := by decide
example : yamlsplit.rustLines "a\nb\n".data = ["a".data, "b".data] := by decide
example : yamlsplit.rustLines "a\r\nb".data = ["a".data, "b".data] := by decide
example : yamlsplit.rustLines "---\r\n".data = ["---".data] := by decide
example : yamlsplit.rustLines "a\r".data = ["a\r".data] := by decide
example : yamlsplit.rustLines "".data = [] := by decide
example : yamlsplit.rustLines "\n\n".data = ["".data, "".data] := by decide
-- the worked example from the specification:
-- input "---\na: 1\n---\nb: 2\n...\n" gives two files, "a: 1\n" and "b: 2\n"
example :
    yamlsplit.finalFiles (yamlsplit.runSplit (yamlsplit.rustLines "---\na: 1\n---\nb: 2\n...\n".data)) =
      ["a: 1\n".data, "b: 2\n".data] := by decide
example :
    yamlsplit.finalFiles (yamlsplit.runSplit (yamlsplit.rustLines "x: 0\n...\ny: 1\n".data)) =
      ["x: 0\n".data, "y: 1\n".data] := by decide
example : yamlsplit.finalFiles (yamlsplit.runSplit []) = [] := by decide
example : (yamlsplit.runFactory "foo".data "yaml".data 0 3).1 =
    ["foo-0.yaml".data, "foo-1.yaml".data, "foo-2.yaml".data] := by decide
example : yamlsplit.stdin_or_input_file [] =
    (yamlsplit.InputSource.stdin, ("stdin".data, "yaml".data)) := by decide

namespace yamlsplit

theorem rsplitOnce_eq_none (c : Char) (s : List Char) (h : c ∉ s) :
    rsplitOnce c s = none := by
  induction s with
  | nil => rfl
  | cons a rest ih =>
    simp only [List.mem_cons, not_or] at h
    have ha : ¬ a = c := fun he => h.1 he.symm
    simp [rsplitOnce, ih h.2, ha]

theorem rsplitOnce_append (c : Char) (b a : List Char) (h : c ∉ a) :
    rsplitOnce c (b ++ c :: a) = some (b, a) := by
  induction b with
  | nil => simp [rsplitOnce, rsplitOnce_eq_none c a h]
  | cons x xs ih => simp [rsplitOnce, ih]

theorem isDocStart_eq_false_of_isDocEnd (l : List Char) (h : isDocEnd l = true) :
    isDocStart l = false := by
  match l with
  | [] => rfl
  | [a] => rfl
  | [a, b] => rfl
  | a :: b :: c :: rest =>
    simp only [isDocEnd, Bool.and_eq_true, decide_eq_true_eq] at h
    simp [isDocStart, h.1]

theorem step_docStart (st : SplitState) (l : List Char) (h : isDocStart l = true) :
    step st l =
      { closed := st.closed ++ st.current.toList, current := some [], count := st.count + 1 } := by
  simp [step, h]

theorem step_docEnd (st : SplitState) (l : List Char) (h : isDocEnd l = true) :
    step st l =
      { closed := st.closed ++ st.current.toList, current := none, count := st.count } := by
  simp [step, isDocStart_eq_false_of_isDocEnd l h, h]

theorem step_content_none (st : SplitState) (l : List Char)
    (h1 : isDocStart l = false) (h2 : isDocEnd l = false) (h3 : st.current = none) :
    step st l = { closed := st.closed, current := some (l ++ ['\n']), count := st.count + 1 } := by
  simp [step, h1, h2, h3, output_line_to_file]

theorem step_content_some (st : SplitState) (l c : List Char)
    (h1 : isDocStart l = false) (h2 : isDocEnd l = false) (h3 : st.current = some c) :
    step st l = { closed := st.closed, current := some (c ++ l ++ ['\n']), count := st.count } := by
  simp [step, h1, h2, h3, output_line_to_file]

theorem fileNameOf_mkPath (d f : List Char) (hf : '/' ∉ f) :
    fileNameOf (mkPath d f) = f := by
  by_cases hd : d = []
  · simp [mkPath, hd, fileNameOf, rsplitOnce_eq_none '/' f hf]
  · simp [mkPath, hd, fileNameOf, rsplitOnce_append '/' d f hf]

theorem parentOf_mkPath (d f : List Char) (hf : '/' ∉ f) :
    parentOf (mkPath d f) = d := by
  by_cases hd : d = []
  · simp [mkPath, hd, parentOf, rsplitOnce_eq_none '/' f hf]
  · simp [mkPath, hd, parentOf, rsplitOnce_append '/' d f hf]

/-- **C1** (corrected).  The `(basename, extension)` decomposition splits
the filename component at its last `.` — the extension is the substring
after the last `.`, the base name is everything before it with any
directory prefix reattached followed by a separator, and a filename with no
`.` yields an empty extension with the whole filename as base name — with
one exception the original claim misses: a filename component whose *only*
`.` is its leading character (a dotfile such as `.bashrc`) yields the empty
extension together with an empty base-name component (the split at the
leading dot still governs the base name), so `.bashrc` gives `("","")`,
not `("","bashrc")`.  Stated for paths whose directory prefix `d` does not
end in a separator and whose filename component is a normal component. -/
theorem basename_splits_at_last_dot :
    (∀ d b a : List Char, d.getLast? ≠ some '/' → '/' ∉ b → '/' ∉ a → '.' ∉ a →
        (b ≠ [] ∨ a ≠ []) → b ++ '.' :: a ≠ ['.', '.'] →
        basename (mkPath d (b ++ '.' :: a)) =
          (dirPre d ++ b, if b = [] then [] else a))
  ∧ (∀ d f : List Char, d.getLast? ≠ some '/' → f ≠ [] → '/' ∉ f → '.' ∉ f →
        basename (mkPath d f) = (dirPre d ++ f, [])) := by
  constructor
  · intro d b a _ hb ha hdot _ _
    have hf : '/' ∉ b ++ '.' :: a := by
      simp only [List.mem_append, List.mem_cons, not_or]
      exact ⟨hb, by decide, ha⟩
    have h1 := fileNameOf_mkPath d _ hf
    have h2 := parentOf_mkPath d _ hf
    have h3 := rsplitOnce_append '.' b a hdot
    simp only [basename, extensionOf, h1, h2, h3, dirPre]
    by_cases hbnil : b = [] <;> simp [hbnil]
  · intro d f _ _ hsf hdot
    have h1 := fileNameOf_mkPath d f hsf
    have h2 := parentOf_mkPath d f hsf
    have h3 := rsplitOnce_eq_none '.' f hdot
    simp [basename, h1, h2, h3, extensionOf, dirPre]

/-- Witness for C1: the decomposition at the concrete path
`dir/foo.bar.baz.yaml` is `("dir/foo.bar.baz", "yaml")`. -/
theorem basename_splits_at_last_dot_witness :
    basename "dir/foo.bar.baz.yaml".data = ("dir/foo.bar.baz".data, "yaml".data) :=
  basename_splits_at_last_dot.1 "dir".data "foo.bar.baz".data "yaml".data
    (by decide) (by decide) (by decide) (by decide) (by decide) (by decide)

/-- Counterexample for C1 as stated: on the dotfile `.bashrc` the code
yields `("","")` — the extension is *not* the substring `bashrc` after the
last `.` — because Rust's `Path::extension()` treats a leading dot as part
of the file name rather than as an extension separator. -/
theorem basename_dotfile_counterexample :
    basename ".bashrc".data = ("".data, "".data) ∧
    basename ".bashrc".data ≠ ("".data, "bashrc".data) := by decide

theorem rustLines_eq_linesGo (s : List Char) (h : s ≠ []) :
    rustLines s = linesGo [] s := by
  cases s with
  | nil => exact absurd rfl h
  | cons c r => rfl

theorem linesGo_crlf (l : List Char) (hl : '\n' ∉ l) :
    ∀ (acc rest : List Char),
      linesGo acc (l ++ '\r' :: '\n' :: rest) =
        (acc.reverse ++ l) :: (if rest = [] then [] else linesGo [] rest) := by
  induction l with
  | nil =>
    intro acc rest
    simp only [List.nil_append, linesGo, chompCR]
    by_cases hr : rest = [] <;> simp [hr]
  | cons x xs ih =>
    intro acc rest
    simp only [List.mem_cons, not_or] at hl
    have hx : ¬ x = '\n' := fun he => hl.1 he.symm
    rw [List.cons_append, linesGo, if_neg hx, ih hl.2 (x :: acc) rest]
    simp

theorem joinCRLF_ne_nil (l : List Char) (ls : List (List Char)) :
    joinCRLF (l :: ls) ≠ [] := by
  simp [joinCRLF]

theorem rustLines_joinCRLF (ls : List (List Char)) (h : ∀ l ∈ ls, '\n' ∉ l) :
    rustLines (joinCRLF ls) = ls := by
  induction ls with
  | nil => rfl
  | cons l ls ih =>
    have hl : '\n' ∉ l := h l (List.mem_cons_self l ls)
    have hjoin : joinCRLF (l :: ls) = l ++ '\r' :: '\n' :: joinCRLF ls := by
      simp [joinCRLF]
    rw [rustLines_eq_linesGo _ (joinCRLF_ne_nil l ls), hjoin,
      linesGo_crlf l hl [] (joinCRLF ls)]
    cases ls with
    | nil => simp [joinCRLF]
    | cons l2 ls2 =>
      rw [if_neg (joinCRLF_ne_nil l2 ls2),
        ← rustLines_eq_linesGo _ (joinCRLF_ne_nil l2 ls2),
        ih (fun x hx => h x (List.mem_cons_of_mem l hx))]
      simp

/-- **C2** (corrected).  Input lines are split at `'\n'`, and a `'\r'`
immediately before the `'\n'` is stripped along with it (`BufRead::lines`
chomps CRLF); consequently a marker line terminated by a CRLF line ending
(`"---\r\n"` or `"...\r\n"`) is still recognized as a start or end marker,
not misclassified as content.  The first conjunct: a CRLF-terminated
line sequence is recovered exactly.  The remaining conjuncts: the CRLF
forms of the two marker lines yield exactly the marker lines, which match
the markers. -/
theorem lines_strip_crlf :
    (∀ ls : List (List Char), (∀ l ∈ ls, '\n' ∉ l) → rustLines (joinCRLF ls) = ls)
  ∧ rustLines "---\r\n".data = ["---".data] ∧ isDocStart "---".data = true
  ∧ rustLines "...\r\n".data = ["...".data] ∧ isDocEnd "...".data = true :=
  ⟨rustLines_joinCRLF, by decide, by decide, by decide, by decide⟩

/-- Witness for C2: the CRLF-terminated two-line input consisting of a
start marker and a content line splits into exactly those two lines. -/
theorem lines_strip_crlf_witness :
    rustLines (joinCRLF ["---".data, "a: 1".data]) = ["---".data, "a: 1".data] :=
  lines_strip_crlf.1 ["---".data, "a: 1".data] (by decide)

/-- Counterexample for C2 as stated: the input `"---\r\n"` is split into
the line `"---"` — the carriage return is NOT left attached — and running
the splitter on it opens one (empty) output file, i.e. the line is treated
as a start marker, not as ordinary content. -/
theorem crlf_marker_counterexample :
    rustLines "---\r\n".data = ["---".data]
  ∧ rustLines "---\r\n".data ≠ ["---\r".data]
  ∧ finalFiles (runSplit (rustLines "---\r\n".data)) = [[]] := by decide

theorem decimalAux_eq (fuel : Nat) : ∀ n : Nat, n ≤ fuel →
    decimalAux fuel n = (Nat.digits 10 n).map Nat.digitChar := by
  induction fuel with
  | zero =>
    intro n hn
    have h0 : n = 0 := Nat.le_zero.mp hn
    subst h0
    simp [decimalAux]
  | succ fuel ih =>
    intro n hn
    by_cases h0 : n = 0
    · subst h0; simp [decimalAux]
    · have hpos : 0 < n := Nat.pos_of_ne_zero h0
      have hlt : n / 10 < n := Nat.div_lt_self hpos (by norm_num)
      have hle : n / 10 ≤ fuel := by omega
      rw [Nat.digits_def' (by norm_num : (1:ℕ) < 10) hpos]
      simp [decimalAux, h0, ih (n / 10) hle]

theorem digitChar_inj_lt :
    ∀ d1, d1 < 10 → ∀ d2, d2 < 10 → Nat.digitChar d1 = Nat.digitChar d2 → d1 = d2 := by
  decide

theorem map_digitChar_inj :
    ∀ l1 : List Nat, (∀ x ∈ l1, x < 10) → ∀ l2 : List Nat, (∀ x ∈ l2, x < 10) →
      l1.map Nat.digitChar = l2.map Nat.digitChar → l1 = l2 := by
  intro l1
  induction l1 with
  | nil =>
    intro _ l2 _ h
    cases l2 with
    | nil => rfl
    | cons y ys => simp at h
  | cons x xs ih =>
    intro h1 l2 h2 h
    cases l2 with
    | nil => simp at h
    | cons y ys =>
      simp only [List.map_cons, List.cons.injEq] at h
      have hx := digitChar_inj_lt x (h1 x (by simp)) y (h2 y (by simp)) h.1
      have hxs := ih (fun z hz => h1 z (by simp [hz])) ys (fun z hz => h2 z (by simp [hz])) h.2
      rw [hx, hxs]

theorem decimalRepr_eq_digits (n : Nat) (hn : n ≠ 0) :
    decimalRepr n = ((Nat.digits 10 n).map Nat.digitChar).reverse := by
  rw [decimalRepr, if_neg hn, decimalAux_eq n n (Nat.le_refl n)]

theorem decimalRepr_inj (m n : Nat) (h : decimalRepr m = decimalRepr n) : m = n := by
  have hbound : ∀ k : Nat, ∀ x ∈ Nat.digits 10 k, x < 10 :=
    fun k x hx => Nat.digits_lt_base (by norm_num) hx
  by_cases hm : m = 0 <;> by_cases hn : n = 0
  · rw [hm, hn]
  · exfalso
    rw [hm, decimalRepr_eq_digits n hn] at h
    rw [show decimalRepr 0 = ['0'] from rfl] at h
    have h2 : (Nat.digits 10 n).map Nat.digitChar = ['0'] := by
      have := congrArg List.reverse h
      simpa using this.symm
    have h3 : Nat.digits 10 n = [0] :=
      map_digitChar_inj _ (hbound n) [0] (by simp) (by simpa using h2)
    have h4 := Nat.getLast_digit_ne_zero 10 hn
    rw [List.getLast_eq_getElem] at h4
    simp [h3] at h4
  · exfalso
    rw [hn, decimalRepr_eq_digits m hm] at h
    rw [show decimalRepr 0 = ['0'] from rfl] at h
    have h2 : (Nat.digits 10 m).map Nat.digitChar = ['0'] := by
      have := congrArg List.reverse h
      simpa using this
    have h3 : Nat.digits 10 m = [0] :=
      map_digitChar_inj _ (hbound m) [0] (by simp) (by simpa using h2)
    have h4 := Nat.getLast_digit_ne_zero 10 hm
    rw [List.getLast_eq_getElem] at h4
    simp [h3] at h4
  · rw [decimalRepr_eq_digits m hm, decimalRepr_eq_digits n hn] at h
    have h2 := List.reverse_injective h
    have h3 := map_digitChar_inj _ (hbound m) _ (hbound n) h2
    have h4 := congrArg (Nat.ofDigits 10) h3
    rwa [Nat.ofDigits_digits, Nat.ofDigits_digits] at h4

theorem mkOutputFilename_inj (b e : List Char) (m n : Nat)
    (h : mkOutputFilename b e m = mkOutputFilename b e n) : m = n := by
  unfold mkOutputFilename at h
  have h1 := List.append_cancel_left h
  simp only [List.cons.injEq, true_and] at h1
  exact decimalRepr_inj m n (List.append_cancel_right h1)

theorem runFactory_eq (b e : List Char) (k : Nat) : ∀ c : Nat,
    runFactory b e c k =
      ((List.range k).map (fun i => mkOutputFilename b e (c + i)), c + k) := by
  induction k with
  | zero => intro c; simp [runFactory]
  | succ k ih =>
    intro c
    simp only [runFactory, open_new_file_for_output, ih (c + 1),
      List.range_succ_eq_map, List.map_cons, List.map_map, Prod.mk.injEq]
    constructor
    · simp only [Nat.add_zero, List.cons.injEq, true_and]
      refine List.map_congr_left fun i _ => ?_
      exact congrArg (mkOutputFilename b e) (by omega)
    · omega

/-- **C3** (confirmed).  With a fixed basename and extension and the counter
starting at 0, `k` successive calls of the output-file factory yield the
filenames `{b}-0.{e}, {b}-1.{e}, …, {b}-(k-1).{e}` strictly in call order
(the counter value is used before the increment), leave the counter at `k`
(incremented exactly once per file, never reset or decremented), and the
produced names contain no repeats. -/
theorem output_filenames_sequential (b e : List Char) (k : Nat) :
    (runFactory b e 0 k).1 = (List.range k).map (mkOutputFilename b e)
  ∧ (runFactory b e 0 k).2 = k
  ∧ ((runFactory b e 0 k).1).Nodup := by
  have h := runFactory_eq b e k 0
  have hinj : Function.Injective (mkOutputFilename b e) :=
    fun m n hmn => mkOutputFilename_inj b e m n hmn
  refine ⟨?_, ?_, ?_⟩
  · rw [h]; simp
  · rw [h]; simp
  · rw [h]
    simp only [Nat.zero_add]
    exact (List.nodup_range k).map hinj

/-- **C4** (confirmed).  On a line matching the start marker the splitter
unconditionally opens a new output file — the state afterwards has an open,
empty current file and the creation counter incremented — even if a file
was already open: the previously open file, if any, is finalized by being
appended to the closed files as its handle is replaced. -/
theorem start_marker_opens_new_file (st : SplitState) (l : List Char)
    (h : isDocStart l = true) :
    (step st l).current = some [] ∧ (step st l).count = st.count + 1 ∧
      (step st l).closed = st.closed ++ st.current.toList := by
  rw [step_docStart st l h]
  exact ⟨rfl, rfl, rfl⟩

/-- Witness for C4: a start marker arriving while the file containing `a`
is open closes that file and opens a fresh empty one. -/
theorem start_marker_opens_new_file_witness :
    (step ⟨[], some ['a'], 1⟩ "---".data).current = some [] ∧
      (step ⟨[], some ['a'], 1⟩ "---".data).count = 1 + 1 ∧
      (step ⟨[], some ['a'], 1⟩ "---".data).closed = [] ++ (some ['a']).toList :=
  start_marker_opens_new_file ⟨[], some ['a'], 1⟩ "---".data (by decide)

/-- **C5** (confirmed).  On a line that is neither a start nor an end
marker: when no output file is open, a new one is opened first (counter
incremented) and the line followed by exactly one `'\n'` becomes its
content; when a file with content `c` is open, the line followed by exactly
one `'\n'` is appended verbatim to `c` and the counter is unchanged. -/
theorem content_line_written_verbatim (st : SplitState) (l : List Char)
    (h1 : isDocStart l = false) (h2 : isDocEnd l = false) :
    (st.current = none →
        step st l = { closed := st.closed, current := some (l ++ ['\n']),
                      count := st.count + 1 })
  ∧ (∀ c, st.current = some c →
        step st l = { closed := st.closed, current := some (c ++ l ++ ['\n']),
                      count := st.count }) :=
  ⟨fun h3 => step_content_none st l h1 h2 h3,
   fun c h3 => step_content_some st l c h1 h2 h3⟩

/-- Witness for C5: the content line `a: 1` arriving with no open file
opens a file and writes the line plus one newline. -/
theorem content_line_written_verbatim_witness :
    step ⟨[], none, 0⟩ "a: 1".data =
      { closed := [], current := some ("a: 1".data ++ ['\n']), count := 0 + 1 } :=
  (content_line_written_verbatim ⟨[], none, 0⟩ "a: 1".data (by decide) (by decide)).1 rfl

/-- **C6** (confirmed).  On a line matching the end marker the splitter
closes the current output file if one is open (it joins the closed files)
and moves to the no-open-output state; the counter is unchanged, so no file
is opened and no content is written; when no file is open the end marker
leaves the state exactly as it was (a no-op). -/
theorem end_marker_closes (st : SplitState) (l : List Char)
    (h : isDocEnd l = true) :
    step st l = { closed := st.closed ++ st.current.toList, current := none,
                  count := st.count }
  ∧ (st.current = none → step st l = st) := by
  obtain ⟨cl, cur, ct⟩ := st
  refine ⟨step_docEnd _ l h, fun h3 => ?_⟩
  simp only at h3
  subst h3
  rw [step_docEnd _ l h]
  simp

/-- Witness for C6: an end marker arriving while the file containing `a` is
open closes it, and arriving with no open file changes nothing. -/
theorem end_marker_closes_witness :
    (step ⟨[], some ['a'], 1⟩ "...".data =
        { closed := [] ++ (some ['a'] : Option (List Char)).toList, current := none,
          count := 1 }) ∧
      ((some ['a'] : Option (List Char)) = none →
        step ⟨[], some ['a'], 1⟩ "...".data = ⟨[], some ['a'], 1⟩) :=
  end_marker_closes ⟨[], some ['a'], 1⟩ "...".data (by decide)

theorem flatten_finalFiles_step (st : SplitState) (l : List Char) :
    (finalFiles (step st l)).flatten =
      (finalFiles st).flatten ++
        (if isDocStart l = false ∧ isDocEnd l = false then l ++ ['\n'] else []) := by
  by_cases h1 : isDocStart l = true
  · rw [step_docStart st l h1]
    simp [finalFiles, h1]
  · rw [Bool.not_eq_true] at h1
    by_cases h2 : isDocEnd l = true
    · rw [step_docEnd st l h2]
      simp [finalFiles, h2]
    · rw [Bool.not_eq_true] at h2
      cases h3 : st.current with
      | none =>
        rw [step_content_none st l h1 h2 h3]
        simp [finalFiles, h1, h2, h3]
      | some c =>
        rw [step_content_some st l c h1 h2 h3]
        simp [finalFiles, h1, h2, h3, List.append_assoc]

theorem flatten_foldl_step (ls : List (List Char)) : ∀ st : SplitState,
    (finalFiles (ls.foldl step st)).flatten =
      (finalFiles st).flatten ++
        ((ls.filter (fun l => !(isDocStart l) && !(isDocEnd l))).map
          (fun l => l ++ ['\n'])).flatten := by
  induction ls with
  | nil => intro st; simp
  | cons l ls ih =>
    intro st
    rw [List.foldl_cons, ih (step st l), flatten_finalFiles_step]
    by_cases h1 : isDocStart l = true
    · simp [List.filter_cons, h1, List.append_assoc]
    · rw [Bool.not_eq_true] at h1
      by_cases h2 : isDocEnd l = true
      · simp [List.filter_cons, h1, h2, List.append_assoc]
      · rw [Bool.not_eq_true] at h2
        simp [List.filter_cons, h1, h2, List.append_assoc]

/-- **C7** (confirmed).  Round-trip: for every input line sequence, the
concatenation of the produced output files' contents, in file-index order,
is exactly the concatenation of the non-marker lines of the input, each
followed by its newline — i.e. the output files' lines are precisely the
subsequence of non-marker (content) lines of the input, in order, the
markers themselves carrying no content. -/
theorem roundtrip_content (ls : List (List Char)) :
    (finalFiles (runSplit ls)).flatten =
      ((ls.filter (fun l => !(isDocStart l) && !(isDocEnd l))).map
        (fun l => l ++ ['\n'])).flatten := by
  have h := flatten_foldl_step ls { closed := [], current := none, count := 0 }
  simpa [runSplit, finalFiles] using h

/-- **C8** (confirmed).  If a line fails to decode as valid text, the scan
aborts at that very line with a failing (non-zero) exit: the lines after
the failure are never processed (the result does not depend on them), and
the state at abort time is exactly the state reached after the decodable
prefix — previously completed output files are intact, and the open file
holds only what was written before the failure. -/
theorem decode_failure_aborts (good : List (List Char))
    (rest : List (Option (List Char))) (st : SplitState) :
    runScan st (good.map some ++ none :: rest) = (good.foldl step st, false) := by
  induction good generalizing st with
  | nil => rfl
  | cons l ls ih =>
    simp only [List.map_cons, List.cons_append, runScan, List.foldl_cons]
    exact ih (step st l)

/-- **C9** (confirmed).  With no argument, or with the single argument `-`,
the input resolver selects standard input and names outputs from the fixed
virtual filename `stdin.yaml`: the basename is `stdin`, the extension is
`yaml`, and the n-th output filename is `stdin-{n}.yaml` — concretely
`stdin-0.yaml`, `stdin-1.yaml`, and so on. -/
theorem stdin_input_naming (argv : List (List Char))
    (h : argv.get? 1 = none ∨ argv.get? 1 = some ['-']) :
    stdin_or_input_file argv = (InputSource.stdin, ("stdin".data, "yaml".data))
  ∧ (∀ n : Nat, mkOutputFilename "stdin".data "yaml".data n =
      "stdin-".data ++ decimalRepr n ++ ".yaml".data)
  ∧ mkOutputFilename "stdin".data "yaml".data 0 = "stdin-0.yaml".data
  ∧ mkOutputFilename "stdin".data "yaml".data 1 = "stdin-1.yaml".data := by
  refine ⟨?_, ?_, by decide, by decide⟩
  · rcases h with h | h <;> rw [List.get?_eq_getElem?] at h <;>
      simp [stdin_or_input_file, h] <;> decide
  · intro n
    simp [mkOutputFilename]

/-- Witness for C9: the empty argument vector selects standard input with
basename `stdin` and extension `yaml`. -/
theorem stdin_input_naming_witness :
    stdin_or_input_file [] = (InputSource.stdin, ("stdin".data, "yaml".data)) :=
  (stdin_input_naming [] (Or.inl rfl)).1

/-- **C10** (confirmed).  Every start-marker line creates a new output file
immediately: the number of files on disk grows by one and an empty file is
open right after the marker is processed, before any content line follows.
In particular two consecutive start markers produce exactly two files, the
first (indeed both) empty, and appending a trailing start marker to any
input leaves one extra empty file on disk. -/
theorem start_marker_creates_file_immediately :
    (∀ (st : SplitState) (l : List Char), isDocStart l = true →
        numFiles (step st l) = numFiles st + 1 ∧ (step st l).current = some [])
  ∧ finalFiles (runSplit ["---".data, "---".data]) = [[], []]
  ∧ (∀ ls : List (List Char),
        finalFiles (runSplit (ls ++ ["---".data])) = finalFiles (runSplit ls) ++ [[]]) := by
  refine ⟨?_, by decide, ?_⟩
  · intro st l h
    rw [step_docStart st l h]
    exact ⟨by simp [numFiles], rfl⟩
  · intro ls
    rw [runSplit, List.foldl_append]
    simp only [List.foldl_cons, List.foldl_nil]
    rw [step_docStart _ _ (by decide)]
    simp [finalFiles, runSplit]

/-- Witness for C10: a start marker in the initial state creates the first
(empty) file. -/
theorem start_marker_creates_file_immediately_witness :
    numFiles (step ⟨[], none, 0⟩ "---".data) = numFiles ⟨[], none, 0⟩ + 1 ∧
      (step ⟨[], none, 0⟩ "---".data).current = some [] :=
  start_marker_creates_file_immediately.1 ⟨[], none, 0⟩ "---".data (by decide)

end yamlsplit
